import Mathlib

/-!
Shallow embedding of `qiskit/pulse/calibration_entries.py` (calibration
entries: `ScheduleDef`, `CallableDef`, `PulseQobjDef`) together with the
collaborator contracts they consume (the schedule-like value, the qobj
converter, and Python argument-binding semantics), and proofs of the
spec claims about them.

Python methods that may mutate `self` are embedded as explicit
state-passing functions returning the post-state; exceptions are
embedded as `Except`.  `PulseQobjDef` carries a ghost `buildCount`
field, incremented exactly by `_build_schedule`, so that the lazy-build
("triggers exactly one build / never rebuilds") claims are statable.
-/

deriving instance DecidableEq for Except

namespace Calib

/-- Mirrors the `CalibrationPublisher` IntEnum of the source
(`BACKEND_PROVIDER = 0`, `QISKIT = 1`, `EXPERIMENT_SERVICE = 2`). -/
inductive CalibrationPublisher where
  | backendProvider
  | qiskit
  | experimentService
deriving DecidableEq

/-- Python exceptions raised by the embedded code.  The source raises
`PulseError` at three distinct sites (non-string argument names at
construction, argument/parameter set mismatch, failed binding); the
Python runtime itself contributes `ValueError` (duplicate parameter
name in `inspect.Signature`), `AttributeError` (attribute lookup on an
object without the attribute) and `TypeError`. -/
inductive PyExc where
  | pulseInvalidArgs
  | pulseArgMismatch
  | pulseBinding
  | valueError
  | attributeError
  | typeError
deriving DecidableEq

/-- Argument values bound against a signature are opaque to this module;
they are embedded as naturals. -/
abbrev Value := Nat

/-- Mirrors a Qiskit `Parameter`: a name plus an identity (uuid), so two
distinct parameters may share a name. -/
structure Param where
  name : String
  uuid : Nat
deriving DecidableEq

/-- Modelled from the spec: a converter-produced native instruction
(opaque content plus the parameters it mentions).  The real
`qiskit.pulse` instruction type is not under `src/`. -/
structure NativeInstr where
  content : Nat
  params : List Param
deriving DecidableEq

/-- Mirrors `PulseQobjInstruction` as consumed by this module: a start
offset `t0` (the ordering key) plus opaque content read only by the
converter. -/
structure QobjInst where
  t0 : Nat
  content : Nat
deriving DecidableEq

/-- A string-keyed metadata mapping (Python dict), embedded as an
association list with dict update semantics. -/
abbrev Metadata := List (String × CalibrationPublisher)

/-- Dict lookup `m.get(k)` / `k in m`. -/
def metaLookup (m : Metadata) (k : String) : Option CalibrationPublisher :=
  (m.find? (fun kv => kv.1 = k)).map (fun kv => kv.2)

/-- Dict assignment `m[k] = v`: replaces the binding of `k` if present,
otherwise appends it. -/
def metaSet (m : Metadata) (k : String) (v : CalibrationPublisher) : Metadata :=
  match m with
  | [] => [(k, v)]
  | kv :: t => if kv.1 = k then (k, v) :: t else kv :: metaSet t k v

/-- Modelled from the spec: the schedule-like value collaborator
(`qiskit/pulse/schedule.py`, not under `src/`).  It exposes a name, a
mutable string-keyed metadata mapping, a set of named parameters, a
time-ordered instruction list, and parameter assignment. -/
structure Schedule where
  name : Option String
  metadata : Metadata
  parameters : List Param
  instructions : List (Nat × NativeInstr)
deriving DecidableEq

/-- Insertion of one timed instruction into an offset-ordered
instruction list, stable among equal offsets (a later insert at the
same offset lands after the existing ones). -/
def insertInst (l : List (Nat × NativeInstr)) (t : Nat) (i : NativeInstr) :
    List (Nat × NativeInstr) :=
  match l with
  | [] => [(t, i)]
  | x :: xs => if t < x.1 then (t, i) :: x :: xs else x :: insertInst xs t i

/-- Modelled from the spec: `Schedule.insert(t0, inst, inplace=True)` —
inserts the instruction at its start offset (stable) and extends the
declared parameter set by the instruction's parameters. -/
def Schedule.insert (s : Schedule) (t : Nat) (i : NativeInstr) : Schedule :=
  { s with instructions := insertInst s.instructions t i,
           parameters := s.parameters ++ i.params }

/-- Modelled from the spec: `Schedule.assign_parameters(value_dict,
inplace=False)` — returns a new schedule-like value in which the
assigned parameters are substituted (removed from the declared
parameter set) and all others remain declared. -/
def Schedule.assignParameters (s : Schedule) (vd : List (Param × Value)) : Schedule :=
  { s with parameters := s.parameters.filter (fun p => !(vd.any (fun pv => pv.1 = p))) }

/-- Set of parameter names of the stored program:
`set(map(lambda x: x.name, self._definition.parameters))`. -/
def allArgNames (d : Schedule) : List String :=
  (d.parameters.map (fun p => p.name)).dedup

/-- Python truthiness of the stored `_user_arguments` (both `None` and
the empty list are falsy). -/
def truthyArgs : Option (List String) → Bool
  | none => false
  | some l => !l.isEmpty

/-- Lexicographic comparison of character lists (by code point),
matching Python string comparison. -/
def lexLe : List Char → List Char → Bool
  | [], _ => true
  | _ :: _, [] => false
  | x :: xs, y :: ys => if x < y then true else if y < x then false else lexLe xs ys

/-- Python `<=` on strings: lexicographic by code point. -/
def strLe (a b : String) : Bool := lexLe a.data b.data

/-- Python set equality `set(a) == set(b)` on name lists. -/
def sameSet (a b : List String) : Bool :=
  a.all (fun x => b.contains x) && b.all (fun x => a.contains x)

/-- Mirrors `ScheduleDef._parse_argument`: derive the ordered signature
names from the stored program and the user-provided argument names.
The final `Nodup` test embeds `inspect.Signature`'s rejection (a
`ValueError`) of duplicate parameter names. -/
def parseArgument (userArgs : Option (List String)) (defn : Schedule) :
    Except PyExc (List String) :=
  let allNames := allArgNames defn
  if truthyArgs userArgs then
    let ua := userArgs.getD []
    if sameSet ua allNames then
      if ua.Nodup then .ok ua else .error .valueError
    else .error .pulseArgMismatch
  else
    let sortedNames := allNames.insertionSort (fun a b => strLe a b = true)
    if sortedNames.Nodup then .ok sortedNames else .error .valueError

/-- Mirrors `inspect.Signature.bind_partial(*args, **kwargs)` for a
signature of positional-or-keyword parameters without defaults: too
many positionals, an unknown keyword, or a keyword colliding with a
positionally-bound name raise `TypeError`, which the source converts
to a `PulseError` — so binding failures surface as `pulseBinding`. -/
def bindArgs (names : List String) (args : List Value)
    (kwargs : List (String × Value)) : Except PyExc (List (String × Value)) :=
  if names.length < args.length then .error .pulseBinding
  else
    let posNames := names.take args.length
    if kwargs.all (fun kv => names.contains kv.1 && !posNames.contains kv.1) then
      .ok (posNames.zip args ++ kwargs)
    else .error .pulseBinding

/-- Lookup of a bound argument by name (`to_bind.arguments[name]`). -/
def lookupArg (bound : List (String × Value)) (k : String) : Option Value :=
  (bound.find? (fun kv => kv.1 = k)).map (fun kv => kv.2)

/-- Mirrors the `value_dict` loop of `ScheduleDef.get_schedule`: every
parameter of the stored program whose name is bound maps to the bound
value. -/
def valueDict (d : Schedule) (bound : List (String × Value)) : List (Param × Value) :=
  d.parameters.filterMap (fun p => (lookupArg bound p.name).map (fun v => (p, v)))

/-- State of a `ScheduleDef` entry. -/
structure ScheduleDef where
  _user_arguments : Option (List String)
  _definition : Option Schedule
  _signature : Option (List String)
deriving DecidableEq

/-- Mirrors `ScheduleDef.__init__`.  The all-strings check on the
argument names (a `PulseError` in Python) is enforced by typing here
and cannot fail. -/
def ScheduleDef.init (arguments : Option (List String)) : ScheduleDef :=
  { _user_arguments := arguments, _definition := none, _signature := none }

/-- Tag-if-absent metadata write used by `ScheduleDef.define` and
`CallableDef.get_schedule`: `if "publisher" not in metadata: ...`. -/
def tagIfAbsent (d : Schedule) (tag : CalibrationPublisher) : Schedule :=
  if (metaLookup d.metadata "publisher").isSome then d
  else { d with metadata := metaSet d.metadata "publisher" tag }

/-- Mirrors `ScheduleDef.define`: store the program, tag its metadata
with `QISKIT` when untagged, then derive the signature. -/
def ScheduleDef.define (st : ScheduleDef) (defn : Schedule) : Except PyExc ScheduleDef :=
  let d := tagIfAbsent defn .qiskit
  match parseArgument st._user_arguments d with
  | .error e => .error e
  | .ok sig => .ok { st with _definition := some d, _signature := some sig }

/-- Mirrors `ScheduleDef.get_signature`. -/
def ScheduleDef.get_signature (st : ScheduleDef) : Option (List String) :=
  st._signature

/-- Value part of `ScheduleDef.get_schedule`, shared with
`PulseQobjDef`: with no arguments the stored program itself is
returned; otherwise the arguments are partially bound against the
signature and assigned on a copy. -/
def sdGetScheduleVal (defn : Option Schedule) (sig : Option (List String))
    (args : List Value) (kwargs : List (String × Value)) :
    Except PyExc (Option Schedule) :=
  if args.isEmpty && kwargs.isEmpty then .ok defn
  else
    match sig with
    | none => .error .attributeError
    | some names =>
      match bindArgs names args kwargs with
      | .error e => .error e
      | .ok bound =>
        match defn with
        | none => .error .attributeError
        | some d => .ok (some (d.assignParameters (valueDict d bound)))

/-- Mirrors `ScheduleDef.get_schedule`: the method reads but never
writes `self`, so the post-state is returned alongside the value. -/
def ScheduleDef.get_schedule (st : ScheduleDef) (args : List Value)
    (kwargs : List (String × Value)) : ScheduleDef × Except PyExc (Option Schedule) :=
  (st, sdGetScheduleVal st._definition st._signature args kwargs)

/-- Value part of `ScheduleDef.__str__`, shared with `PulseQobjDef`. -/
def sdStrVal (defn : Option Schedule) (sig : Option (List String)) :
    Except PyExc String :=
  match defn with
  | none => .error .attributeError
  | some d =>
    let out := "Schedule " ++ (match d.name with | some n => n | none => "")
    match sig with
    | none => .error .attributeError
    | some names =>
      let ps := String.intercalate ", " names
      .ok (if ps.isEmpty then out else out ++ "(" ++ ps ++ ")")

/-- Python values that carry no `_definition` attribute (`None`, an
int, a string, ...), used to embed equality tests of an entry against
a non-entry object. -/
inductive NonEntry where
  | pyNone
  | pyInt (n : Int)
  | pyStr (s : String)
deriving DecidableEq

/-- Models Python attribute lookup `o._definition` on a value without
such an attribute: it raises `AttributeError` whatever the expected
attribute type. -/
def NonEntry.getAttrDefinition (α : Type) : NonEntry → Except PyExc α :=
  fun _ => .error .attributeError

/-- Mirrors `ScheduleDef.__eq__` applied to a non-entry object: the
body `self._definition == other._definition` first looks up
`other._definition`. -/
def ScheduleDef.eqNonEntry (st : ScheduleDef) (o : NonEntry) : Except PyExc Bool :=
  match o.getAttrDefinition (Option Schedule) with
  | .error e => .error e
  | .ok od => .ok (decide (st._definition = od))

/-- A Python callable as consumed by `CallableDef`: an object identity
(for the `is` comparison in `__eq__`), a `__name__`, its declared
parameter list as recovered by `inspect.signature` (ordered
positional-or-keyword parameters, each with an optional default), and
the function body applied to a fully resolved argument mapping. -/
structure PyCallable where
  id : Nat
  fname : String
  params : List (String × Option Value)
  body : List (String × Value) → Schedule

/-- Mirrors `inspect.Signature.bind(*args, **kwargs)`: positional and
keyword matching as in `bindArgs`, then every parameter without a
default must have received a value. -/
def bindFull (ps : List (String × Option Value)) (args : List Value)
    (kwargs : List (String × Value)) : Except PyExc (List (String × Value)) :=
  match bindArgs (ps.map (fun pd => pd.1)) args kwargs with
  | .error e => .error e
  | .ok bound =>
    if ps.all (fun pd => pd.2.isSome || (lookupArg bound pd.1).isSome) then .ok bound
    else .error .pulseBinding

/-- Mirrors `BoundArguments.apply_defaults`: the resolved argument
mapping in declaration order, with declared default values filled in
for parameters that were not bound. -/
def applyDefaults (ps : List (String × Option Value))
    (bound : List (String × Value)) : List (String × Value) :=
  ps.filterMap (fun pd =>
    match lookupArg bound pd.1 with
    | some v => some (pd.1, v)
    | none => pd.2.map (fun dv => (pd.1, dv)))

/-- State of a `CallableDef` entry. -/
structure CallableDef where
  _definition : Option PyCallable
  _signature : Option (List (String × Option Value))

/-- Mirrors `CallableDef.__init__`. -/
def CallableDef.init : CallableDef :=
  { _definition := none, _signature := none }

/-- Mirrors `CallableDef.define`: store the callable and take its
signature via `inspect.signature`. -/
def CallableDef.define (st : CallableDef) (f : PyCallable) : CallableDef :=
  { st with _definition := some f, _signature := some f.params }

/-- Mirrors `CallableDef.get_signature`. -/
def CallableDef.get_signature (st : CallableDef) : Option (List (String × Option Value)) :=
  st._signature

/-- Mirrors `CallableDef.get_schedule`: full binding, then the callable
is invoked with the resolved arguments and its result tagged `QISKIT`
when untagged.  The natural returned alongside the schedule is a ghost
count of how many times the callable was invoked during this call. -/
def CallableDef.get_schedule (st : CallableDef) (args : List Value)
    (kwargs : List (String × Value)) : Except PyExc (Schedule × Nat) :=
  match st._signature, st._definition with
  | some ps, some f =>
    match bindFull ps args kwargs with
    | .error _ => .error .pulseBinding
    | .ok bound =>
      let schedule := f.body (applyDefaults ps bound)
      .ok (tagIfAbsent schedule .qiskit, 1)
  | _, _ => .error .attributeError

/-- Python `is` on two optional callables: reference identity. -/
def pyIs (a b : Option PyCallable) : Bool :=
  match a, b with
  | some f, some g => f.id == g.id
  | none, none => true
  | _, _ => false

/-- Mirrors `CallableDef.__eq__` applied to a non-entry object: the
body `self._definition is other._definition` first looks up
`other._definition`. -/
def CallableDef.eqNonEntry (st : CallableDef) (o : NonEntry) : Except PyExc Bool :=
  match o.getAttrDefinition (Option PyCallable) with
  | .error e => .error e
  | .ok od => .ok (pyIs st._definition od)

/-- State of a `PulseQobjDef` entry.  `buildCount` is a ghost field
counting executions of `_build_schedule`; no operation reads it. -/
structure PulseQobjDef where
  _user_arguments : Option (List String)
  _definition : Option Schedule
  _signature : Option (List String)
  _converter : QobjInst → List NativeInstr
  _name : Option String
  _source : Option (List QobjInst)
  buildCount : Nat

/-- Mirrors `PulseQobjDef.__init__` (the converter, defaulted in Python
to `QobjToInstructionConverter(pulse_library=[])`, is passed in). -/
def PulseQobjDef.init (arguments : Option (List String))
    (converter : QobjInst → List NativeInstr) (name : Option String) : PulseQobjDef :=
  { _user_arguments := arguments, _definition := none, _signature := none,
    _converter := converter, _name := name, _source := none, buildCount := 0 }

/-- Instruction-building phase of `PulseQobjDef._build_schedule` (lines
236-239 of the source): starting from an empty named schedule, for
every qobj instruction in source order, every converter-produced
instruction is inserted at that qobj instruction's `t0`. -/
def buildSchedBody (conv : QobjInst → List NativeInstr) (nm : Option String)
    (src : List QobjInst) : Schedule :=
  src.foldl
    (fun sch q => (conv q).foldl (fun s i => s.insert q.t0 i) sch)
    { name := nm, metadata := [], parameters := [], instructions := [] }

/-- Full build of the cached schedule: the instruction-building phase
followed by the unconditional `BACKEND_PROVIDER` publisher write (line
240 of the source). -/
def buildSched (conv : QobjInst → List NativeInstr) (nm : Option String)
    (src : List QobjInst) : Schedule :=
  let s := buildSchedBody conv nm src
  { s with metadata := metaSet s.metadata "publisher" .backendProvider }

/-- Mirrors `PulseQobjDef._build_schedule`: build and cache the
schedule, then derive the signature.  Iterating a `None` source raises
`TypeError`; a signature-derivation failure raises after the schedule
has already been cached, exactly as in the Python method body. -/
def PulseQobjDef._build_schedule (st : PulseQobjDef) : PulseQobjDef × Except PyExc Unit :=
  match st._source with
  | none => (st, .error .typeError)
  | some src =>
    let schedule := buildSched st._converter st._name src
    let st1 := { st with _definition := some schedule, buildCount := st.buildCount + 1 }
    match parseArgument st1._user_arguments schedule with
    | .error e => (st1, .error e)
    | .ok sig => ({ st1 with _signature := some sig }, .ok ())

/-- Mirrors `PulseQobjDef.define`: store the raw qobj sequence only. -/
def PulseQobjDef.define (st : PulseQobjDef) (src : List QobjInst) : PulseQobjDef :=
  { st with _source := some src }

/-- Mirrors `PulseQobjDef.get_signature`: build first when unbuilt,
then read the derived signature. -/
def PulseQobjDef.get_signature (st : PulseQobjDef) :
    PulseQobjDef × Except PyExc (Option (List String)) :=
  match st._definition with
  | none =>
    let (st1, r) := st._build_schedule
    match r with
    | .error e => (st1, .error e)
    | .ok _ => (st1, .ok st1._signature)
  | some _ => (st, .ok st._signature)

/-- Mirrors `PulseQobjDef.get_schedule`: build first when unbuilt, then
delegate to the `ScheduleDef` binding logic on the cached program. -/
def PulseQobjDef.get_schedule (st : PulseQobjDef) (args : List Value)
    (kwargs : List (String × Value)) : PulseQobjDef × Except PyExc (Option Schedule) :=
  match st._definition with
  | none =>
    let (st1, r) := st._build_schedule
    match r with
    | .error e => (st1, .error e)
    | .ok _ => (st1, sdGetScheduleVal st1._definition st1._signature args kwargs)
  | some _ => (st, sdGetScheduleVal st._definition st._signature args kwargs)

/-- Mirrors `PulseQobjDef.__str__`: the fixed placeholder while
unbuilt, the `ScheduleDef` rendering once built; never a build. -/
def PulseQobjDef.toStr (st : PulseQobjDef) : PulseQobjDef × Except PyExc String :=
  match st._definition with
  | none => (st, .ok "PulseQobj")
  | some _ => (st, sdStrVal st._definition st._signature)

/-- Mirrors the `isinstance(other, PulseQobjDef)` branch of
`PulseQobjDef.__eq__`: the two raw qobj sequences are compared
directly; neither entry is touched. -/
def PulseQobjDef.eqPulseQobj (st other : PulseQobjDef) : PulseQobjDef × Bool :=
  (st, decide (st._source = other._source))

/-- Mirrors the `isinstance(other, ScheduleDef)` branch of
`PulseQobjDef.__eq__`: a still-unbuilt entry is built as a side effect,
then the cached programs are compared structurally. -/
def PulseQobjDef.eqSchedDef (st : PulseQobjDef) (other : ScheduleDef) :
    PulseQobjDef × Except PyExc Bool :=
  match st._definition with
  | none =>
    let (st1, r) := st._build_schedule
    match r with
    | .error e => (st1, .error e)
    | .ok _ => (st1, .ok (decide (st1._definition = other._definition)))
  | some _ => (st, .ok (decide (st._definition = other._definition)))

section Lemmas

lemma insertInst_all_not_lt (l : List (Nat × NativeInstr)) (t : Nat) (i : NativeInstr)
    (h : ∀ x ∈ l, ¬ t < x.1) : insertInst l t i = l ++ [(t, i)] := by
  induction l with
  | nil => rfl
  | cons x xs ih =>
    simp only [insertInst]
    rw [if_neg (h x (by simp))]
    simp [ih (fun y hy => h y (by simp [hy]))]

lemma insertInst_all_gt (l : List (Nat × NativeInstr)) (t : Nat) (i : NativeInstr)
    (h : ∀ x ∈ l, t < x.1) : insertInst l t i = (t, i) :: l := by
  cases l with
  | nil => rfl
  | cons x xs =>
    simp only [insertInst]
    rw [if_pos (h x (by simp))]

lemma insertInst_append (A B : List (Nat × NativeInstr)) (t : Nat) (i : NativeInstr)
    (hA : ∀ x ∈ A, ¬ t < x.1) :
    insertInst (A ++ B) t i = A ++ insertInst B t i := by
  induction A with
  | nil => rfl
  | cons a A ih =>
    simp only [List.cons_append, insertInst]
    rw [if_neg (hA a (by simp))]
    simp [ih (fun y hy => hA y (by simp [hy]))]

lemma foldl_insertInst (js : List NativeInstr) (t : Nat) (A B : List (Nat × NativeInstr))
    (hA : ∀ x ∈ A, ¬ t < x.1) (hB : ∀ x ∈ B, t < x.1) :
    js.foldl (fun l i => insertInst l t i) (A ++ B)
      = A ++ js.map (fun i => (t, i)) ++ B := by
  induction js generalizing A with
  | nil => simp
  | cons j js ih =>
    have h1 : insertInst (A ++ B) t j = (A ++ [(t, j)]) ++ B := by
      rw [insertInst_append A B t j hA, insertInst_all_gt B t j hB]
      simp
    have hA' : ∀ x ∈ A ++ [(t, j)], ¬ t < x.1 := by
      intro x hx
      rcases List.mem_append.1 hx with h | h
      · exact hA x h
      · simp at h
        simp [h]
    simp only [List.foldl_cons, h1, ih (A ++ [(t, j)]) hA']
    simp

lemma Schedule.insert_instructions (s : Schedule) (t : Nat) (i : NativeInstr) :
    (s.insert t i).instructions = insertInst s.instructions t i := rfl

lemma foldl_insert_instructions (js : List NativeInstr) (t : Nat) (s : Schedule) :
    (js.foldl (fun sch i => sch.insert t i) s).instructions
      = js.foldl (fun l i => insertInst l t i) s.instructions := by
  induction js generalizing s with
  | nil => rfl
  | cons j js ih =>
    simp only [List.foldl_cons, ih]
    rfl

lemma foldl_insert_metadata (js : List NativeInstr) (t : Nat) (s : Schedule) :
    (js.foldl (fun sch i => sch.insert t i) s).metadata = s.metadata := by
  induction js generalizing s with
  | nil => rfl
  | cons j js ih =>
    simp only [List.foldl_cons, ih]
    rfl

lemma buildSchedBody_metadata (conv : QobjInst → List NativeInstr) (nm : Option String)
    (src : List QobjInst) : (buildSchedBody conv nm src).metadata = [] := by
  unfold buildSchedBody
  suffices h : ∀ (l : List QobjInst) (s : Schedule),
      (l.foldl (fun sch q => (conv q).foldl (fun s i => s.insert q.t0 i) sch) s).metadata
        = s.metadata by
    rw [h]
  intro l
  induction l with
  | nil => intro s; rfl
  | cons q l ih =>
    intro s
    simp only [List.foldl_cons, ih, foldl_insert_metadata]

lemma buildSched_metadata (conv : QobjInst → List NativeInstr) (nm : Option String)
    (src : List QobjInst) :
    (buildSched conv nm src).metadata = [("publisher", CalibrationPublisher.backendProvider)] := by
  unfold buildSched
  simp [buildSchedBody_metadata, metaSet]

end Lemmas

/-- C10: for every `ScheduleDef` and every `CallableDef`, testing
equality against an object carrying no stored definition (`None`, an
int, a string) raises `AttributeError` — the body dereferences
`other._definition` before anything else — rather than returning
`False` or `NotImplemented`. -/
theorem eq_against_nonentry_raises_attributeError (st : ScheduleDef) (cst : CallableDef)
    (o : NonEntry) :
    st.eqNonEntry o = .error .attributeError
      ∧ cst.eqNonEntry o = .error .attributeError :=
  ⟨rfl, rfl⟩

/-- C7: for every defined `ScheduleDef`, `get_schedule()` with no
positional and no keyword arguments returns exactly the stored
schedule-like value, with the entry state untouched and no
substitution performed. -/
theorem get_schedule_no_args_returns_stored (st : ScheduleDef) (d : Schedule)
    (h : st._definition = some d) :
    st.get_schedule [] [] = (st, .ok (some d)) := by
  simp [ScheduleDef.get_schedule, sdGetScheduleVal, h]

/-- Witness for C7 at a concrete defined entry. -/
theorem get_schedule_no_args_returns_stored_witness :
    (ScheduleDef.mk none (some ⟨some "s", [], [⟨"amp", 0⟩], []⟩) (some ["amp"])).get_schedule [] []
      = (ScheduleDef.mk none (some ⟨some "s", [], [⟨"amp", 0⟩], []⟩) (some ["amp"]),
         .ok (some ⟨some "s", [], [⟨"amp", 0⟩], []⟩)) :=
  get_schedule_no_args_returns_stored _ _ rfl

/-- C2: the build step inserts, for every serialized instruction in
source order, each converter-produced instruction at that
instruction's declared start offset — so a source with offsets `10`
then `5` yields an instruction list ordered offset `5` first, then
`10` — and the built schedule's publisher tag is `BACKEND_PROVIDER`
unconditionally, for every source. -/
theorem buildSched_offset_order_and_publisher (conv : QobjInst → List NativeInstr)
    (nm : Option String) (c1 c2 : Nat) :
    (buildSched conv nm [⟨10, c1⟩, ⟨5, c2⟩]).instructions
        = (conv ⟨5, c2⟩).map (fun i => (5, i)) ++ (conv ⟨10, c1⟩).map (fun i => (10, i))
      ∧ ∀ src, metaLookup (buildSched conv nm src).metadata "publisher"
          = some .backendProvider := by
  constructor
  · have hstep : (buildSched conv nm [⟨10, c1⟩, ⟨5, c2⟩]).instructions
        = (buildSchedBody conv nm [⟨10, c1⟩, ⟨5, c2⟩]).instructions := rfl
    rw [hstep]
    unfold buildSchedBody
    simp only [List.foldl_cons, List.foldl_nil]
    rw [foldl_insert_instructions, foldl_insert_instructions]
    have h10 : (conv ⟨10, c1⟩).foldl (fun l i => insertInst l (10 : Nat) i) ([] : List (Nat × NativeInstr))
        = (conv ⟨10, c1⟩).map (fun i => ((10 : Nat), i)) := by
      have := foldl_insertInst (conv ⟨10, c1⟩) 10 [] [] (by simp) (by simp)
      simpa using this
    have h5 : (conv ⟨5, c2⟩).foldl (fun l i => insertInst l (5 : Nat) i)
          ((conv ⟨10, c1⟩).map (fun i => ((10 : Nat), i)))
        = (conv ⟨5, c2⟩).map (fun i => ((5 : Nat), i))
            ++ (conv ⟨10, c1⟩).map (fun i => ((10 : Nat), i)) := by
      have := foldl_insertInst (conv ⟨5, c2⟩) 5 []
          ((conv ⟨10, c1⟩).map (fun i => ((10 : Nat), i)))
          (by simp)
          (by
            intro x hx
            simp only [List.mem_map] at hx
            obtain ⟨i, _, rfl⟩ := hx
            norm_num)
      simpa using this
    simp only [h10, h5]
  · intro src
    simp [metaLookup, buildSched_metadata]

section OrderLemmas

lemma lexLe_total (a b : List Char) : lexLe a b = true ∨ lexLe b a = true := by
  induction a generalizing b with
  | nil => left; rfl
  | cons x xs ih =>
    cases b with
    | nil => right; rfl
    | cons y ys =>
      by_cases hxy : x < y
      · left; simp [lexLe, hxy]
      · by_cases hyx : y < x
        · right; simp [lexLe, hyx]
        · rcases ih ys with hc | hc
          · left; simp [lexLe, hxy, hyx, hc]
          · right; simp [lexLe, hxy, hyx, hc]

lemma lexLe_trans (a b c : List Char) (h1 : lexLe a b = true) (h2 : lexLe b c = true) :
    lexLe a c = true := by
  induction a generalizing b c with
  | nil => rfl
  | cons x xs ih =>
    cases b with
    | nil => simp [lexLe] at h1
    | cons y ys =>
      cases c with
      | nil => simp [lexLe] at h2
      | cons z zs =>
        simp only [lexLe] at h1 h2 ⊢
        by_cases hxy : x < y
        · by_cases hyz : y < z
          · have hxz : x < z := lt_trans hxy hyz
            simp [hxz]
          · by_cases hzy : z < y
            · simp [hyz, hzy] at h2
            · have hyzeq : y = z := le_antisymm (not_lt.1 hzy) (not_lt.1 hyz)
              subst hyzeq
              simp [hxy]
        · by_cases hyx : y < x
          · simp [hxy, hyx] at h1
          · have hxyeq : x = y := le_antisymm (not_lt.1 hyx) (not_lt.1 hxy)
            subst hxyeq
            by_cases hyz : x < z
            · simp [hyz]
            · by_cases hzy : z < x
              · simp [hyz, hzy] at h2
              · have hxzeq : x = z := le_antisymm (not_lt.1 hzy) (not_lt.1 hyz)
                subst hxzeq
                simp only [lt_irrefl, if_false] at h1 h2 ⊢
                exact ih ys zs h1 h2

instance : IsTotal String (fun a b => strLe a b = true) :=
  ⟨fun a b => lexLe_total a.data b.data⟩

instance : IsTrans String (fun a b => strLe a b = true) :=
  ⟨fun a b c => lexLe_trans a.data b.data c.data⟩

end OrderLemmas

section ParseLemmas

lemma tagIfAbsent_parameters (d : Schedule) (tag : CalibrationPublisher) :
    (tagIfAbsent d tag).parameters = d.parameters := by
  unfold tagIfAbsent
  split <;> rfl

lemma allArgNames_tagIfAbsent (d : Schedule) (tag : CalibrationPublisher) :
    allArgNames (tagIfAbsent d tag) = allArgNames d := by
  unfold allArgNames
  rw [tagIfAbsent_parameters]

lemma parseArgument_none (d : Schedule) :
    parseArgument none d
      = .ok ((allArgNames d).insertionSort (fun a b => strLe a b = true)) := by
  unfold parseArgument
  have hperm : List.Perm ((allArgNames d).insertionSort (fun a b => strLe a b = true))
      (allArgNames d) :=
    List.perm_insertionSort _ _
  have hnd : ((allArgNames d).insertionSort (fun a b => strLe a b = true)).Nodup :=
    hperm.symm.nodup (List.nodup_dedup _)
  simp [truthyArgs, hnd]

end ParseLemmas

/-- C3: for every `ScheduleDef` constructed without explicit argument
names and successfully defined, the signature names are sorted
lexicographically (by code point, as Python `sorted` does), contain no
duplicates, and are exactly the distinct parameter names of the stored
value. -/
theorem signature_sorted_without_user_args (d : Schedule) (st : ScheduleDef)
    (h : (ScheduleDef.init none).define d = .ok st) :
    ∃ names, st.get_signature = some names
      ∧ names.Sorted (fun a b => strLe a b = true)
      ∧ names.Nodup
      ∧ (∀ n, n ∈ names ↔ n ∈ d.parameters.map (fun p => p.name)) := by
  have hp : parseArgument none (tagIfAbsent d .qiskit)
      = .ok ((allArgNames d).insertionSort (fun a b => strLe a b = true)) := by
    rw [parseArgument_none, allArgNames_tagIfAbsent]
  simp only [ScheduleDef.define, ScheduleDef.init] at h
  rw [hp] at h
  simp only [Except.ok.injEq] at h
  subst h
  refine ⟨(allArgNames d).insertionSort (fun a b => strLe a b = true), rfl, ?_, ?_, ?_⟩
  · exact List.sorted_insertionSort _ _
  · exact (List.perm_insertionSort _ _).symm.nodup (List.nodup_dedup _)
  · intro n
    rw [List.mem_insertionSort]
    unfold allArgNames
    rw [List.mem_dedup]

/-- Witness for C3 at a concrete schedule with parameters named
`dur`, `amp`, `amp`. -/
theorem signature_sorted_without_user_args_witness :
    ∃ names,
      (ScheduleDef.mk none
        (some ⟨some "s", [("publisher", .qiskit)], [⟨"dur", 1⟩, ⟨"amp", 0⟩, ⟨"amp", 5⟩], []⟩)
        (some ["amp", "dur"])).get_signature = some names
      ∧ names.Sorted (fun a b => strLe a b = true)
      ∧ names.Nodup
      ∧ (∀ n, n ∈ names ↔
          n ∈ (Schedule.mk (some "s") [] [⟨"dur", 1⟩, ⟨"amp", 0⟩, ⟨"amp", 5⟩] []).parameters.map
            (fun p => p.name)) :=
  signature_sorted_without_user_args
    ⟨some "s", [], [⟨"dur", 1⟩, ⟨"amp", 0⟩, ⟨"amp", 5⟩], []⟩ _ (by decide)

/-- C6 counterexample: the claim fails as stated.  With explicit
argument names `["a", "a"]` and a stored value whose parameter-name
set is `{"a"}` the two sets are equal, yet `define` raises (the
duplicate parameter name is rejected by `inspect.Signature` with a
`ValueError`), so `get_signature` never returns the caller's order;
and with the explicit empty list the sets differ (`{}` vs `{"a"}`),
yet construction succeeds without `ArgumentMismatch`, because an empty
argument list is falsy and is treated as absent. -/
theorem explicit_args_counterexample :
    (sameSet ["a", "a"] (allArgNames ⟨some "s", [], [⟨"a", 0⟩], []⟩) = true
      ∧ (ScheduleDef.init (some ["a", "a"])).define ⟨some "s", [], [⟨"a", 0⟩], []⟩
          = .error .valueError)
    ∧ (sameSet [] (allArgNames ⟨some "s", [], [⟨"a", 0⟩], []⟩) = false
      ∧ (ScheduleDef.init (some [])).define ⟨some "s", [], [⟨"a", 0⟩], []⟩
          = .ok ⟨some [], some ⟨some "s", [("publisher", .qiskit)], [⟨"a", 0⟩], []⟩,
                 some ["a"]⟩) := by
  decide

/-- C6 amended: for every `ScheduleDef` given a nonempty, duplicate-free
list of explicit argument names — when the set of explicit names
equals the set of parameter names of the defined value,
`get_signature()` returns the names in exactly the caller's given
order; when the two sets differ, definition fails with
`ArgumentMismatch`. -/
theorem explicit_args_order_or_mismatch (ua : List String) (d : Schedule)
    (hne : ua ≠ []) (hnd : ua.Nodup) :
    (sameSet ua (allArgNames d) = true →
      ∃ st, (ScheduleDef.init (some ua)).define d = .ok st ∧ st.get_signature = some ua)
    ∧ (sameSet ua (allArgNames d) = false →
      (ScheduleDef.init (some ua)).define d = .error .pulseArgMismatch) := by
  have htr : truthyArgs (some ua) = true := by
    cases ua with
    | nil => exact absurd rfl hne
    | cons x xs => rfl
  constructor
  · intro hset
    refine ⟨⟨some ua, some (tagIfAbsent d .qiskit), some ua⟩, ?_, rfl⟩
    simp only [ScheduleDef.define, ScheduleDef.init, parseArgument, allArgNames_tagIfAbsent,
      htr, if_true, Option.getD_some]
    rw [if_pos hset, if_pos hnd]
  · intro hset
    simp only [ScheduleDef.define, ScheduleDef.init, parseArgument, allArgNames_tagIfAbsent,
      htr, if_true, Option.getD_some]
    rw [if_neg (by simp [hset])]

/-- Witness for the amended C6 at explicit names `["b", "a"]` over
parameters `{"a", "b"}`: caller order preserved. -/
theorem explicit_args_order_or_mismatch_witness :
    ∃ st, (ScheduleDef.init (some ["b", "a"])).define ⟨some "s", [], [⟨"a", 0⟩, ⟨"b", 1⟩], []⟩
        = .ok st ∧ st.get_signature = some ["b", "a"] :=
  (explicit_args_order_or_mismatch ["b", "a"] ⟨some "s", [], [⟨"a", 0⟩, ⟨"b", 1⟩], []⟩
    (by decide) (by decide)).1 (by decide)

section BindingLemmas

lemma lookupArg_eq_none_iff (bound : List (String × Value)) (k : String) :
    lookupArg bound k = none ↔ ∀ v, (k, v) ∉ bound := by
  unfold lookupArg
  rw [Option.map_eq_none']
  rw [List.find?_eq_none]
  constructor
  · intro h v hv
    have := h (k, v) hv
    simp at this
  · intro h x hx
    simp only [decide_eq_true_eq]
    intro hk
    have hx' : (k, x.2) ∈ bound := by
      have : x = (k, x.2) := by
        cases x
        simp only at hk
        simp [hk]
      rw [← this]
      exact hx
    exact h x.2 hx'

lemma lookupArg_isSome_of_mem {bound : List (String × Value)} {k : String} {v : Value}
    (h : (k, v) ∈ bound) : (lookupArg bound k).isSome = true := by
  unfold lookupArg
  rw [Option.isSome_map']
  rw [List.find?_isSome]
  exact ⟨(k, v), h, by simp⟩

lemma bindArgs_ok_spec {names : List String} {args : List Value}
    {kwargs bound : List (String × Value)} (h : bindArgs names args kwargs = .ok bound) :
    args.length ≤ names.length
    ∧ bound = (names.take args.length).zip args ++ kwargs
    ∧ ∀ kv ∈ kwargs, kv.1 ∈ names ∧ kv.1 ∉ names.take args.length := by
  simp only [bindArgs] at h
  split at h
  · cases h
  · rename_i hlen
    split at h
    · rename_i hall
      injection h with h
      refine ⟨Nat.le_of_not_lt hlen, h.symm, ?_⟩
      intro kv hkv
      have h2 := List.all_eq_true.1 hall kv hkv
      rw [Bool.and_eq_true] at h2
      obtain ⟨hc1, hc2⟩ := h2
      rw [Bool.not_eq_true'] at hc2
      refine ⟨List.mem_of_elem_eq_true hc1, ?_⟩
      intro hmem
      simp only [List.contains] at hc2
      rw [List.elem_eq_true_of_mem hmem] at hc2
      cases hc2
    · cases h

lemma parseArgument_name_mem {ua : Option (List String)} {d : Schedule} {ns : List String}
    (h : parseArgument ua d = .ok ns) : ∀ n ∈ ns, ∃ p ∈ d.parameters, p.name = n := by
  simp only [parseArgument] at h
  split at h
  · split at h
    · rename_i hset
      split at h
      · injection h with h
        subst h
        intro n hn
        have hmem : n ∈ allArgNames d := by
          rw [sameSet, Bool.and_eq_true] at hset
          have h2 := List.all_eq_true.1 hset.1 n hn
          exact List.mem_of_elem_eq_true h2
        rw [allArgNames, List.mem_dedup, List.mem_map] at hmem
        obtain ⟨p, hp, hpn⟩ := hmem
        exact ⟨p, hp, hpn⟩
      · cases h
    · cases h
  · split at h
    · injection h with h
      subst h
      intro n hn
      rw [List.mem_insertionSort, allArgNames, List.mem_dedup, List.mem_map] at hn
      obtain ⟨p, hp, hpn⟩ := hn
      exact ⟨p, hp, hpn⟩
    · cases h

lemma mem_assign_iff (d' : Schedule) (bound : List (String × Value)) (p : Param) :
    p ∈ (d'.assignParameters (valueDict d' bound)).parameters
      ↔ (p ∈ d'.parameters ∧ lookupArg bound p.name = none) := by
  simp only [Schedule.assignParameters, List.mem_filter]
  constructor
  · rintro ⟨hp, hcond⟩
    refine ⟨hp, ?_⟩
    rw [Bool.not_eq_true'] at hcond
    cases hl : lookupArg bound p.name with
    | none => rfl
    | some v =>
      exfalso
      have hmem : (p, v) ∈ valueDict d' bound := by
        rw [valueDict, List.mem_filterMap]
        refine ⟨p, hp, ?_⟩
        rw [hl]
        rfl
      have hany : (valueDict d' bound).any (fun pv => pv.1 = p) = true := by
        rw [List.any_eq_true]
        exact ⟨(p, v), hmem, by simp⟩
      rw [hany] at hcond
      cases hcond
  · rintro ⟨hp, hl⟩
    refine ⟨hp, ?_⟩
    rw [Bool.not_eq_true']
    rw [List.any_eq_false]
    intro pv hpv
    rw [valueDict, List.mem_filterMap] at hpv
    obtain ⟨q, hq, hfq⟩ := hpv
    cases hlq : lookupArg bound q.name with
    | none =>
      rw [hlq] at hfq
      cases hfq
    | some v =>
      rw [hlq] at hfq
      injection hfq with hfq
      simp only [decide_eq_true_eq]
      intro hqp
      rw [← hfq] at hqp
      simp only at hqp
      rw [← hqp] at hl
      rw [hlq] at hl
      cases hl

end BindingLemmas

/-- C4: for every defined `ScheduleDef` and every `get_schedule` call
with at least one argument that binds successfully, exactly the
parameters named in the bound-argument set are substituted, every
other parameter of the stored value remains declared in the result,
the result is a new schedule-like value distinct from the stored one,
and the entry state (hence the stored original) is unchanged. -/
theorem get_schedule_partial_binding (ua : Option (List String)) (d : Schedule)
    (st : ScheduleDef) (names : List String) (args : List Value)
    (kwargs bound : List (String × Value))
    (hdef : (ScheduleDef.init ua).define d = .ok st)
    (hn : st._signature = some names)
    (hb : bindArgs names args kwargs = .ok bound)
    (hne : args ≠ [] ∨ kwargs ≠ []) :
    ∃ d' r, st._definition = some d'
      ∧ st.get_schedule args kwargs = (st, .ok (some r))
      ∧ (∀ p, p ∈ r.parameters ↔ (p ∈ d'.parameters ∧ lookupArg bound p.name = none))
      ∧ r ≠ d' := by
  simp only [ScheduleDef.define, ScheduleDef.init] at hdef
  cases hp : parseArgument ua (tagIfAbsent d .qiskit) with
  | error e =>
    rw [hp] at hdef
    cases hdef
  | ok ns =>
    rw [hp] at hdef
    injection hdef with hdef
    subst hdef
    injection hn with hn
    subst hn
    have hneB : (args.isEmpty && kwargs.isEmpty) = false := by
      cases args with
      | cons a as => rfl
      | nil =>
        cases kwargs with
        | cons k ks => rfl
        | nil => rcases hne with h | h <;> exact absurd rfl h
    refine ⟨tagIfAbsent d .qiskit,
      (tagIfAbsent d .qiskit).assignParameters
        (valueDict (tagIfAbsent d .qiskit) bound), rfl, ?_, ?_, ?_⟩
    · simp only [ScheduleDef.get_schedule, sdGetScheduleVal, hneB, Bool.false_eq_true,
        if_false, hb]
    · intro p
      exact mem_assign_iff _ _ p
    · obtain ⟨hlen, hbound, hkw⟩ := bindArgs_ok_spec hb
      have hkey : ∃ n₀ v₀, n₀ ∈ ns ∧ (n₀, v₀) ∈ bound := by
        rcases hne with h | h
        · cases args with
          | nil => exact absurd rfl h
          | cons a as =>
            cases hns : ns with
            | nil =>
              rw [hns] at hlen
              simp at hlen
            | cons m ms =>
              refine ⟨m, a, by simp, ?_⟩
              rw [hbound, hns]
              simp [List.zip]
        · cases kwargs with
          | nil => exact absurd rfl h
          | cons kv kvs =>
            refine ⟨kv.1, kv.2, (hkw kv (by simp)).1, ?_⟩
            rw [hbound]
            apply List.mem_append_right
            simp
      obtain ⟨n₀, v₀, hn₀, hmem₀⟩ := hkey
      obtain ⟨p₀, hp₀, hp₀n⟩ := parseArgument_name_mem hp n₀ hn₀
      intro hr
      have hpin : p₀ ∈ ((tagIfAbsent d .qiskit).assignParameters
          (valueDict (tagIfAbsent d .qiskit) bound)).parameters := by
        rw [hr]
        exact hp₀
      rw [mem_assign_iff] at hpin
      have hsome := lookupArg_isSome_of_mem hmem₀
      rw [← hp₀n] at hsome
      rw [hpin.2] at hsome
      cases hsome

/-- Witness for C4: parameters `amp`, `dur`; positional binding of
`amp` only leaves `dur` declared and returns a new value. -/
theorem get_schedule_partial_binding_witness :
    ∃ d' r,
      (ScheduleDef.mk none
          (some ⟨some "s", [("publisher", .qiskit)], [⟨"amp", 0⟩, ⟨"dur", 1⟩], []⟩)
          (some ["amp", "dur"]))._definition = some d'
      ∧ (ScheduleDef.mk none
          (some ⟨some "s", [("publisher", .qiskit)], [⟨"amp", 0⟩, ⟨"dur", 1⟩], []⟩)
          (some ["amp", "dur"])).get_schedule [7] []
          = (ScheduleDef.mk none
              (some ⟨some "s", [("publisher", .qiskit)], [⟨"amp", 0⟩, ⟨"dur", 1⟩], []⟩)
              (some ["amp", "dur"]), .ok (some r))
      ∧ (∀ p, p ∈ r.parameters ↔ (p ∈ d'.parameters ∧ lookupArg [("amp", 7)] p.name = none))
      ∧ r ≠ d' :=
  get_schedule_partial_binding none
    ⟨some "s", [("publisher", .qiskit)], [⟨"amp", 0⟩, ⟨"dur", 1⟩], []⟩
    _ ["amp", "dur"] [7] [] [("amp", 7)] (by decide) rfl (by decide) (.inl (by decide))

section CallableLemmas

lemma bindArgs_error_eq {names : List String} {args : List Value}
    {kwargs : List (String × Value)} {e : PyExc}
    (h : bindArgs names args kwargs = .error e) : e = .pulseBinding := by
  simp only [bindArgs] at h
  split at h
  · injection h with h
    exact h.symm
  · split at h
    · cases h
    · injection h with h
      exact h.symm

lemma bindFull_missing_required {ps : List (String × Option Value)} {args : List Value}
    {kwargs : List (String × Value)} {n : String}
    (hmem : (n, (none : Option Value)) ∈ ps)
    (hpos : n ∉ (ps.map (fun pd => pd.1)).take args.length)
    (hkw : n ∉ kwargs.map (fun kv => kv.1)) :
    bindFull ps args kwargs = .error .pulseBinding := by
  cases hba : bindArgs (ps.map (fun pd => pd.1)) args kwargs with
  | error e =>
    have he := bindArgs_error_eq hba
    subst he
    simp [bindFull, hba]
  | ok bound =>
    obtain ⟨hlen, hbound, hkwspec⟩ := bindArgs_ok_spec hba
    have hlook : lookupArg bound n = none := by
      rw [lookupArg_eq_none_iff]
      intro v hv
      rw [hbound] at hv
      rcases List.mem_append.1 hv with h | h
      · exact hpos (List.of_mem_zip h).1
      · exact hkw (List.mem_map.2 ⟨(n, v), h, rfl⟩)
    have hallfalse :
        (ps.all fun pd => pd.2.isSome || (lookupArg bound pd.1).isSome) = false := by
      rw [List.all_eq_false]
      exact ⟨(n, none), hmem, by simp [hlook]⟩
    simp [bindFull, hba, hallfalse]

lemma metaLookup_metaSet_self (m : Metadata) (k : String) (v : CalibrationPublisher) :
    metaLookup (metaSet m k v) k = some v := by
  induction m with
  | nil => simp [metaSet, metaLookup]
  | cons kv t ih =>
    by_cases h : kv.1 = k
    · simp [metaSet, h, metaLookup]
    · simp only [metaSet, if_neg h]
      simpa [metaLookup, List.find?_cons, h] using ih

end CallableLemmas

/-- C5: for every `CallableDef`, `get_schedule` fails with the binding
`PulseError` when a required parameter of the callable (one with no
default) is left unbound, or when a positional overflow or an
unexpected keyword name is supplied; when binding succeeds, the call
invokes the callable exactly once (ghost count `1`, and the entry
state holds no cache — every call re-executes the body) with the fully
resolved argument set (defaults applied), and the returned value's
publisher tag is set to `QISKIT` only if it was untagged. -/
theorem callable_get_schedule_binding (f : PyCallable) (args : List Value)
    (kwargs : List (String × Value)) :
    ((∃ n, (n, (none : Option Value)) ∈ f.params
        ∧ n ∉ (f.params.map (fun pd => pd.1)).take args.length
        ∧ n ∉ kwargs.map (fun kv => kv.1)) →
      (CallableDef.init.define f).get_schedule args kwargs = .error .pulseBinding)
    ∧ ((f.params.length < args.length
        ∨ ∃ kv ∈ kwargs, kv.1 ∉ f.params.map (fun pd => pd.1)) →
      (CallableDef.init.define f).get_schedule args kwargs = .error .pulseBinding)
    ∧ (∀ bound, bindFull f.params args kwargs = .ok bound →
      (CallableDef.init.define f).get_schedule args kwargs
          = .ok (tagIfAbsent (f.body (applyDefaults f.params bound)) .qiskit, 1)
      ∧ (∀ t, metaLookup (f.body (applyDefaults f.params bound)).metadata "publisher"
            = some t →
          tagIfAbsent (f.body (applyDefaults f.params bound)) .qiskit
            = f.body (applyDefaults f.params bound))
      ∧ (metaLookup (f.body (applyDefaults f.params bound)).metadata "publisher" = none →
          metaLookup (tagIfAbsent (f.body (applyDefaults f.params bound)) .qiskit).metadata
            "publisher" = some .qiskit)) := by
  refine ⟨?_, ?_, ?_⟩
  · rintro ⟨n, hmem, hpos, hkw⟩
    have hb := bindFull_missing_required hmem hpos hkw
    simp [CallableDef.get_schedule, CallableDef.define, CallableDef.init, hb]
  · rintro (hof | ⟨kv, hkv, hnot⟩)
    · have hba : bindArgs (f.params.map (fun pd => pd.1)) args kwargs
          = .error .pulseBinding := by
        simp only [bindArgs]
        rw [if_pos]
        rw [List.length_map]
        exact hof
      simp [CallableDef.get_schedule, CallableDef.define, CallableDef.init, bindFull, hba]
    · cases hba : bindArgs (f.params.map (fun pd => pd.1)) args kwargs with
      | error e =>
        have he := bindArgs_error_eq hba
        subst he
        simp [CallableDef.get_schedule, CallableDef.define, CallableDef.init, bindFull, hba]
      | ok bound =>
        obtain ⟨_, _, hkwspec⟩ := bindArgs_ok_spec hba
        exact absurd (hkwspec kv hkv).1 hnot
  · intro bound hb
    refine ⟨?_, ?_, ?_⟩
    · simp [CallableDef.get_schedule, CallableDef.define, CallableDef.init, hb]
    · intro t ht
      have hs : (metaLookup (f.body (applyDefaults f.params bound)).metadata
          "publisher").isSome = true := by
        rw [ht]
        rfl
      simp [tagIfAbsent, hs]
    · intro hnone
      have hs : (metaLookup (f.body (applyDefaults f.params bound)).metadata
          "publisher").isSome = false := by
        rw [hnone]
        rfl
      simp [tagIfAbsent, hs, metaLookup_metaSet_self]

/-- Witness for C5 at a concrete callable with required `amp` and
defaulted `dur`: the no-argument call raises, and `amp := 5` invokes
the body once on the fully resolved arguments. -/
theorem callable_get_schedule_binding_witness :
    ((CallableDef.init.define ⟨0, "play", [("amp", none), ("dur", some 9)],
        fun resolved => ⟨some "r", [], [], [(0, ⟨resolved.length, []⟩)]⟩⟩).get_schedule [] []
      = .error .pulseBinding)
    ∧ ((CallableDef.init.define ⟨0, "play", [("amp", none), ("dur", some 9)],
        fun resolved => ⟨some "r", [], [], [(0, ⟨resolved.length, []⟩)]⟩⟩).get_schedule [5] []
      = .ok (tagIfAbsent ((⟨0, "play", [("amp", none), ("dur", some 9)],
          fun resolved => ⟨some "r", [], [], [(0, ⟨resolved.length, []⟩)]⟩⟩ : PyCallable).body
            (applyDefaults [("amp", none), ("dur", some 9)] [("amp", 5)])) .qiskit, 1)) :=
  ⟨(callable_get_schedule_binding _ [] []).1 ⟨"amp", by decide, by decide, by decide⟩,
   ((callable_get_schedule_binding _ [5] []).2.2 [("amp", 5)] (by decide)).1⟩

/-- C1: for every `PulseQobjDef`, after `define(source)` the entry is
unbuilt and `__str__` returns the fixed placeholder without touching
the state (hence without building); the first call — whether
`get_signature()` or `get_schedule(...)` with any arguments — performs
exactly one build of the schedule from the source (ghost `buildCount`
goes from `0` to `1`, the cached definition is the built schedule, and
a first `get_schedule` call lands in exactly the same built state as a
first `get_signature` call); and afterwards `get_signature()` returns
the same cached result with the state unchanged, and `get_schedule()`
never changes the state (never rebuilds) and serves the cached
schedule. -/
theorem pulseQobj_lazy_build (ua : Option (List String))
    (conv : QobjInst → List NativeInstr) (nm : Option String) (src : List QobjInst)
    (sig : List String)
    (hp : parseArgument ua (buildSched conv nm src) = .ok sig) :
    ((PulseQobjDef.init ua conv nm).define src).toStr
        = ((PulseQobjDef.init ua conv nm).define src, .ok "PulseQobj")
    ∧ ((PulseQobjDef.init ua conv nm).define src).get_signature.2 = .ok (some sig)
    ∧ ((PulseQobjDef.init ua conv nm).define src).get_signature.1.buildCount = 1
    ∧ ((PulseQobjDef.init ua conv nm).define src).get_signature.1._definition
        = some (buildSched conv nm src)
    ∧ ((PulseQobjDef.init ua conv nm).define src).get_signature.1.get_signature
        = (((PulseQobjDef.init ua conv nm).define src).get_signature.1, .ok (some sig))
    ∧ (∀ args kwargs,
        (((PulseQobjDef.init ua conv nm).define src).get_signature.1.get_schedule
            args kwargs).1
          = ((PulseQobjDef.init ua conv nm).define src).get_signature.1)
    ∧ (((PulseQobjDef.init ua conv nm).define src).get_signature.1.get_schedule [] []).2
        = .ok (some (buildSched conv nm src))
    ∧ (∀ args kwargs,
        (((PulseQobjDef.init ua conv nm).define src).get_schedule args kwargs).1
          = ((PulseQobjDef.init ua conv nm).define src).get_signature.1)
    ∧ (((PulseQobjDef.init ua conv nm).define src).get_schedule [] []).2
        = .ok (some (buildSched conv nm src)) := by
  have hsig : ((PulseQobjDef.init ua conv nm).define src).get_signature
      = (⟨ua, some (buildSched conv nm src), some sig, conv, nm, some src, 1⟩,
         .ok (some sig)) := by
    simp only [PulseQobjDef.get_signature, PulseQobjDef.init, PulseQobjDef.define,
      PulseQobjDef._build_schedule, hp]
  have hged : ∀ args kwargs,
      ((PulseQobjDef.init ua conv nm).define src).get_schedule args kwargs
        = (⟨ua, some (buildSched conv nm src), some sig, conv, nm, some src, 1⟩,
           sdGetScheduleVal (some (buildSched conv nm src)) (some sig) args kwargs) := by
    intro args kwargs
    simp only [PulseQobjDef.get_schedule, PulseQobjDef.init, PulseQobjDef.define,
      PulseQobjDef._build_schedule, hp]
  refine ⟨rfl, ?_, ?_, ?_, ?_, ?_, ?_, ?_, ?_⟩
  · rw [hsig]
  · rw [hsig]
  · rw [hsig]
  · rw [hsig]
    rfl
  · intro args kwargs
    rw [hsig]
    rfl
  · rw [hsig]
    rfl
  · intro args kwargs
    rw [hged, hsig]
  · rw [hged]
    rfl

/-- Witness for C1: one qobj instruction at offset `10`, a converter
producing one `amp`-parameterized instruction. -/
theorem pulseQobj_lazy_build_witness :
    ((PulseQobjDef.init none (fun q => [⟨q.content, [⟨"amp", 0⟩]⟩]) (some "n")).define
        [⟨10, 100⟩]).toStr
      = (((PulseQobjDef.init none (fun q => [⟨q.content, [⟨"amp", 0⟩]⟩])
          (some "n")).define [⟨10, 100⟩]), .ok "PulseQobj")
    ∧ ((PulseQobjDef.init none (fun q => [⟨q.content, [⟨"amp", 0⟩]⟩]) (some "n")).define
        [⟨10, 100⟩]).get_signature.2 = .ok (some ["amp"])
    ∧ ((PulseQobjDef.init none (fun q => [⟨q.content, [⟨"amp", 0⟩]⟩]) (some "n")).define
        [⟨10, 100⟩]).get_signature.1.buildCount = 1
    ∧ ((PulseQobjDef.init none (fun q => [⟨q.content, [⟨"amp", 0⟩]⟩]) (some "n")).define
        [⟨10, 100⟩]).get_signature.1._definition
        = some (buildSched (fun q => [⟨q.content, [⟨"amp", 0⟩]⟩]) (some "n") [⟨10, 100⟩])
    ∧ ((PulseQobjDef.init none (fun q => [⟨q.content, [⟨"amp", 0⟩]⟩]) (some "n")).define
        [⟨10, 100⟩]).get_signature.1.get_signature
        = (((PulseQobjDef.init none (fun q => [⟨q.content, [⟨"amp", 0⟩]⟩])
            (some "n")).define [⟨10, 100⟩]).get_signature.1, .ok (some ["amp"]))
    ∧ (∀ args kwargs,
        (((PulseQobjDef.init none (fun q => [⟨q.content, [⟨"amp", 0⟩]⟩])
            (some "n")).define [⟨10, 100⟩]).get_signature.1.get_schedule args kwargs).1
          = ((PulseQobjDef.init none (fun q => [⟨q.content, [⟨"amp", 0⟩]⟩])
              (some "n")).define [⟨10, 100⟩]).get_signature.1)
    ∧ (((PulseQobjDef.init none (fun q => [⟨q.content, [⟨"amp", 0⟩]⟩]) (some "n")).define
        [⟨10, 100⟩]).get_signature.1.get_schedule [] []).2
        = .ok (some (buildSched (fun q => [⟨q.content, [⟨"amp", 0⟩]⟩]) (some "n")
            [⟨10, 100⟩]))
    ∧ (∀ args kwargs,
        (((PulseQobjDef.init none (fun q => [⟨q.content, [⟨"amp", 0⟩]⟩])
            (some "n")).define [⟨10, 100⟩]).get_schedule args kwargs).1
          = ((PulseQobjDef.init none (fun q => [⟨q.content, [⟨"amp", 0⟩]⟩])
              (some "n")).define [⟨10, 100⟩]).get_signature.1)
    ∧ (((PulseQobjDef.init none (fun q => [⟨q.content, [⟨"amp", 0⟩]⟩]) (some "n")).define
        [⟨10, 100⟩]).get_schedule [] []).2
        = .ok (some (buildSched (fun q => [⟨q.content, [⟨"amp", 0⟩]⟩]) (some "n")
            [⟨10, 100⟩])) :=
  pulseQobj_lazy_build none (fun q => [⟨q.content, [⟨"amp", 0⟩]⟩]) (some "n")
    [⟨10, 100⟩] ["amp"] (by decide)

/-- C8: comparing two `PulseQobjDef` entries compares the raw qobj
sources directly and leaves the state untouched (no build even when
unbuilt); comparing a still-unbuilt `PulseQobjDef` against a
`ScheduleDef` triggers exactly one build (ghost count `+1`, the cached
definition becomes the built schedule) and then compares the resulting
schedule-like values structurally. -/
theorem pulseQobj_eq_lazy (st other : PulseQobjDef) (other2 : ScheduleDef)
    (src : List QobjInst) (sig : List String)
    (h1 : st._definition = none) (h2 : st._source = some src)
    (hp : parseArgument st._user_arguments (buildSched st._converter st._name src)
      = .ok sig) :
    ((st.eqPulseQobj other).1 = st
      ∧ ((st.eqPulseQobj other).2 = true ↔ st._source = other._source))
    ∧ (∃ st1 b, st.eqSchedDef other2 = (st1, .ok b)
        ∧ st1.buildCount = st.buildCount + 1
        ∧ st1._definition = some (buildSched st._converter st._name src)
        ∧ (b = true ↔ st1._definition = other2._definition)) := by
  constructor
  · exact ⟨rfl, decide_eq_true_iff⟩
  · refine ⟨({ st with
                 _definition := some (buildSched st._converter st._name src),
                 _signature := some sig,
                 buildCount := st.buildCount + 1 }),
      decide (some (buildSched st._converter st._name src) = other2._definition),
      ?_, rfl, rfl, decide_eq_true_iff⟩
    simp only [PulseQobjDef.eqSchedDef, PulseQobjDef._build_schedule, h1, h2, hp]

/-- Witness for C8 at a concrete unbuilt entry with empty source,
compared against itself and against an empty-definition
`ScheduleDef`. -/
theorem pulseQobj_eq_lazy_witness :
    (((PulseQobjDef.mk none none none (fun _ => []) none (some []) 0).eqPulseQobj
        (PulseQobjDef.mk none none none (fun _ => []) none (some []) 0)).1
      = PulseQobjDef.mk none none none (fun _ => []) none (some []) 0
      ∧ (((PulseQobjDef.mk none none none (fun _ => []) none (some []) 0).eqPulseQobj
          (PulseQobjDef.mk none none none (fun _ => []) none (some []) 0)).2 = true
        ↔ (PulseQobjDef.mk none none none (fun _ => []) none (some []) 0)._source
            = (PulseQobjDef.mk none none none (fun _ => []) none (some []) 0)._source))
    ∧ (∃ st1 b,
        (PulseQobjDef.mk none none none (fun _ => []) none (some []) 0).eqSchedDef
            (ScheduleDef.mk none none none) = (st1, .ok b)
        ∧ st1.buildCount
            = (PulseQobjDef.mk none none none (fun _ => []) none (some []) 0).buildCount + 1
        ∧ st1._definition = some (buildSched (fun _ => []) none [])
        ∧ (b = true ↔ st1._definition = (ScheduleDef.mk none none none)._definition)) :=
  pulseQobj_eq_lazy (PulseQobjDef.mk none none none (fun _ => []) none (some []) 0)
    (PulseQobjDef.mk none none none (fun _ => []) none (some []) 0)
    (ScheduleDef.mk none none none) [] [] rfl rfl (by decide)

/-- C9: a publisher tag is written at most once per schedule-like
value: `ScheduleDef.define` leaves an already-tagged value untouched,
`CallableDef.get_schedule` returns an already-tagged callback result
unchanged, and the `PulseQobjDef` build writes its unconditional
`BACKEND_PROVIDER` tag onto a freshly built schedule whose metadata
holds no publisher tag before that single write. -/
theorem publisher_tag_set_at_most_once
    (st0 st : ScheduleDef) (d : Schedule) (t : CalibrationPublisher)
    (hd : metaLookup d.metadata "publisher" = some t)
    (hdef : st0.define d = .ok st)
    (f : PyCallable) (args : List Value) (kwargs bound : List (String × Value))
    (t' : CalibrationPublisher)
    (hb : bindFull f.params args kwargs = .ok bound)
    (ht : metaLookup (f.body (applyDefaults f.params bound)).metadata "publisher" = some t')
    (conv : QobjInst → List NativeInstr) (nm : Option String) (src : List QobjInst) :
    st._definition = some d
    ∧ (CallableDef.init.define f).get_schedule args kwargs
        = .ok (f.body (applyDefaults f.params bound), 1)
    ∧ metaLookup (buildSchedBody conv nm src).metadata "publisher" = none := by
  have htag : tagIfAbsent d .qiskit = d := by
    have hs : (metaLookup d.metadata "publisher").isSome = true := by
      rw [hd]
      rfl
    simp [tagIfAbsent, hs]
  refine ⟨?_, ?_, ?_⟩
  · simp only [ScheduleDef.define, htag] at hdef
    cases hpp : parseArgument st0._user_arguments d with
    | error e =>
      rw [hpp] at hdef
      cases hdef
    | ok ns =>
      rw [hpp] at hdef
      injection hdef with hdef
      subst hdef
      rfl
  · have htag2 : tagIfAbsent (f.body (applyDefaults f.params bound)) .qiskit
        = f.body (applyDefaults f.params bound) := by
      have hs : (metaLookup (f.body (applyDefaults f.params bound)).metadata
          "publisher").isSome = true := by
        rw [ht]
        rfl
      simp [tagIfAbsent, hs]
    simp [CallableDef.get_schedule, CallableDef.define, CallableDef.init, hb, htag2]
  · rw [buildSchedBody_metadata]
    rfl

/-- Witness for C9 at concrete already-tagged values. -/
theorem publisher_tag_set_at_most_once_witness :
    (ScheduleDef.mk none
        (some ⟨some "s", [("publisher", .backendProvider)], [], []⟩)
        (some []))._definition
      = some ⟨some "s", [("publisher", .backendProvider)], [], []⟩
    ∧ (CallableDef.init.define ⟨1, "g", [("a", none)],
        fun _ => ⟨none, [("publisher", .experimentService)], [], []⟩⟩).get_schedule [4] []
      = .ok ((⟨1, "g", [("a", none)],
          fun _ => ⟨none, [("publisher", .experimentService)], [], []⟩⟩ : PyCallable).body
            (applyDefaults [("a", none)] [("a", 4)]), 1)
    ∧ metaLookup (buildSchedBody (fun _ => []) none []).metadata "publisher" = none :=
  publisher_tag_set_at_most_once (ScheduleDef.init none) _
    ⟨some "s", [("publisher", .backendProvider)], [], []⟩ .backendProvider
    (by decide) (by decide)
    ⟨1, "g", [("a", none)], fun _ => ⟨none, [("publisher", .experimentService)], [], []⟩⟩
    [4] [] [("a", 4)] .experimentService (by decide) (by decide)
    (fun _ => []) none []

end Calib
